import Mathlib

/-
Verification development for the audio-library collator (src/collator.py).

The Python program is shallowly embedded: file contents are lists of byte
values (`List Nat`), the filesystem seen by the scanner is an inductive tree
of directory entries, exceptions are modelled with `Except`/`Option`, and
the two external collaborators are modelled by data:
  - the ID3 tag library (eyed3) as an optional tag container
    `Option (Option Id3Tag)` (`eyed3.load` may return `None`, and a loaded
    file's `.tag` may be `None`);
  - the SHA-1 accumulator (hashlib) as an absorb/finalize pair, where the
    absorbed state is the list of bytes fed to `update` so far and the
    finalizer `digest : List Nat → String` (standing for the SHA-1 hex
    digest) is a parameter of every statement about hashing.
-/

set_option maxHeartbeats 1000000

/-- Embedded tag container: the `title`/`artist`/`album` fields that
`eyed3`'s `tag` object exposes, each independently present or absent. -/
structure Id3Tag where
  title : Option String
  artist : Option String
  album : Option String
deriving DecidableEq

/-- Embedding of the `CollatorFile` class state after `__init__`:
`fname` and `hash` fields, plus `audiofile`, the result of
`eyed3.load(fname)` (`none` = load returned `None`; `some none` = loaded
but no tag container; `some (some t)` = tag container `t`). -/
structure CollatorFile where
  fname : String
  hash : String
  audiofile : Option (Option Id3Tag)
deriving DecidableEq

/-- Embedding of Python `s.split('/')` (as used in
`CollatorFile.path_elements`), character by character: splitting the empty
string yields `[[]]`, a separator character starts a new group. -/
def splitChar : List Char → List (List Char)
  | [] => [[]]
  | c :: cs =>
    let r := splitChar cs
    if c = '/' then [] :: r
    else
      match r with
      | [] => [[c]]
      | g :: gs => (c :: g) :: gs

/-- Embedding of `CollatorFile.path_elements`: `self.fname.split('/')`. -/
def path_elements (fname : String) : List String :=
  (splitChar fname.data).map String.mk

/-- Embedding of the `path_artist` property, `self.path_elements()[4]`.
The Python indexing raises `IndexError` when the list is too short; the
raising outcome is modelled as `none`. -/
def path_artist (fname : String) : Option String :=
  (path_elements fname)[4]?

/-- Embedding of the `path_album` property, `self.path_elements()[5]`,
with the `IndexError` outcome modelled as `none`. -/
def path_album (fname : String) : Option String :=
  (path_elements fname)[5]?

/-- Embedding of `os.path.basename` (POSIX): the suffix of the path after
the last `'/'`, i.e. `p[p.rfind('/')+1:]`. -/
def basenameChars (l : List Char) : List Char :=
  (l.reverse.takeWhile (fun c => c != '/')).reverse

/-- String-level wrapper for `basenameChars`. -/
def basename (s : String) : String :=
  String.mk (basenameChars s.data)

/-- Case-insensitive extension test used by the regex `(mp3|m4a)`:
`c3 c2 c1` are the last three characters of the filename in order. -/
def isExtChars (c3 c2 c1 : Char) : Bool :=
  (c3.toLower == 'm' && c2.toLower == 'p' && c1.toLower == '3') ||
  (c3.toLower == 'm' && c2.toLower == '4' && c1.toLower == 'a')

/-- Core of the regex `.+\.(mp3|m4a)$` decided on the REVERSED character
list of the match region: a match exists iff the region ends in a literal
dot followed by `mp3`/`m4a` (case-insensitively) — the extension can only
be the final three characters — and the part before the dot (matched by
`.+`) is non-empty and free of newline characters, since `.` does not
match a newline. -/
def coreRevMatch : List Char → Bool
  | c1 :: c2 :: c3 :: c4 :: p =>
    (c4 == '.') && (!p.isEmpty) && p.all (fun c => !(c == '\n')) && isExtChars c3 c2 c1
  | _ => false

/-- Decision of `re.compile(".+\.(mp3|m4a)$", re.IGNORECASE).match(b)`:
`re.match` anchors at the start, and `$` lets the match region end either
at the end of the string or just before one final newline. -/
def isAudioBase (b : List Char) : Bool :=
  match b.reverse with
  | [] => false
  | c :: r => if c = '\n' then coreRevMatch r else coreRevMatch (c :: r)

/-- Embedding of `CollatorFile.is_audio_file` on the file name: apply the
regex to `os.path.basename(fname)`. -/
def isAudioFile (fname : String) : Bool :=
  isAudioBase (basenameChars fname.data)

/-- Method form of `isAudioFile` on the embedded class state. -/
def CollatorFile.is_audio_file (cf : CollatorFile) : Bool :=
  isAudioFile cf.fname

/-- The extension condition of the specification: the extension equals,
case-insensitively, exactly `mp3` or `m4a`. -/
def extOK (e : List Char) : Prop :=
  e.map Char.toLower = ['m', 'p', '3'] ∨ e.map Char.toLower = ['m', '4', 'a']

/-- Formalization of the claimed filename pattern, in the spec's words:
any non-empty prefix, then a dot, then an extension of exactly `mp3` or
`m4a` (case-insensitively). -/
def audioSpecPattern (b : List Char) : Prop :=
  ∃ p e, b = p ++ '.' :: e ∧ p ≠ [] ∧ extOK e

/-- The pattern actually decided by the regex on the match region: as
`audioSpecPattern`, but the part matched by `.+` must additionally be
free of newline characters. -/
def corePattern (l : List Char) : Prop :=
  ∃ p e, l = p ++ '.' :: e ∧ p ≠ [] ∧ '\n' ∉ p ∧ extOK e

/-- The amended filename pattern: the `corePattern` match region is
either the whole base filename or the base filename minus one final
newline (which `$` permits). -/
def audioRegexPattern (b : List Char) : Prop :=
  corePattern b ∨ ∃ x, b = x ++ ['\n'] ∧ corePattern x

/-- Embedding of the `title_tag` property: `self.audiofile.tag.title`
with `AttributeError` (from a `None` audiofile or `None` tag) caught and
turned into `None`. -/
def CollatorFile.title_tag (cf : CollatorFile) : Option String :=
  match cf.audiofile with
  | some (some t) => t.title
  | _ => none

/-- Embedding of the `artist_tag` property, with the caught
`AttributeError` modelled as `none`. -/
def CollatorFile.artist_tag (cf : CollatorFile) : Option String :=
  match cf.audiofile with
  | some (some t) => t.artist
  | _ => none

/-- Embedding of the `album_tag` property, with the caught
`AttributeError` modelled as `none`. -/
def CollatorFile.album_tag (cf : CollatorFile) : Option String :=
  match cf.audiofile with
  | some (some t) => t.album
  | _ => none

/-- The `BLOCKSIZE` constant of `generate_hash`. -/
def BLOCKSIZE : Nat := 65536

/-- Embedding of the read/update loop of `generate_hash`: `acc` is the
byte sequence absorbed by the SHA-1 accumulator so far (`hasher.update`
appends to it), `l` is the unread remainder of the file. Each iteration
reads `B` bytes; the loop stops when a read returns the empty buffer. -/
def absorbStream (B : Nat) (acc : List Nat) (l : List Nat) : List Nat :=
  match l with
  | [] => acc
  | c :: cs =>
    if B = 0 then acc
    else absorbStream B (acc ++ (c :: cs).take B) ((c :: cs).drop B)
termination_by l.length
decreasing_by
  simp [List.length_drop]
  omega

/-- Embedding of `CollatorFile.generate_hash` on the file content:
absorb the content in `BLOCKSIZE` chunks, then finalize with the SHA-1
hex-digest function `digest` (a parameter modelling `hashlib`). -/
def generate_hash (digest : List Nat → String) (content : List Nat) : String :=
  digest (absorbStream BLOCKSIZE [] content)

/-- Embedding of `generate_hash` as invoked on a file name: `open` the
name in the filesystem `fs` (a map from names to optional byte contents;
`none` = unreadable, raising `IOError`, modelled as `Except.error`). -/
def generate_hash_at (digest : List Nat → String) (fs : String → Option (List Nat))
    (fname : String) : Except String String :=
  match fs fname with
  | none => Except.error ("IOError: " ++ fname)
  | some content => Except.ok (generate_hash digest content)

/-- Character-level embedding of `.replace("\\", "/")`: the replacement
of the one-character substring `"\\"` maps each backslash to a slash. -/
def normChar (c : Char) : Char :=
  if c = '\\' then '/' else c

/-- Embedding of `os.path.join(path, f).replace("\\", "/")`, second
half: backslash normalization applied by `build_library` to every
constructed path. -/
def normPath (s : String) : String :=
  String.mk (s.data.map normChar)

/-- Does the string start with a slash (POSIX `b.startswith(sep)`). -/
def startsWithSlash (s : String) : Bool :=
  match s.data with
  | [] => false
  | c :: _ => c = '/'

/-- Does the string end with a slash (POSIX `path.endswith(sep)`). -/
def endsWithSlash (s : String) : Bool :=
  match s.data.getLast? with
  | some c => c = '/'
  | none => false

/-- Embedding of two-argument POSIX `os.path.join`: if `b` is absolute
take `b`; if `a` is empty or ends in a slash, concatenate; otherwise
insert a slash. -/
def joinPath (a b : String) : String :=
  if startsWithSlash b then b
  else if a.data = [] || endsWithSlash a then a ++ b
  else a ++ "/" ++ b

/-- Embedding of `CollatorFile.__init__(fname)`: reading the file for the
hash may raise `IOError` (`content = none`); on success the instance
stores `fname`, the hash, and the `eyed3.load` result. Tag absence is not
an error. -/
def mkCollatorFile (digest : List Nat → String) (content : Option (List Nat))
    (tags : Option (Option Id3Tag)) (fname : String) : Except String CollatorFile :=
  match content with
  | none => Except.error ("IOError: " ++ fname)
  | some bytes =>
    Except.ok { fname := fname, hash := generate_hash digest bytes, audiofile := tags }

/-- One directory entry as classified by `build_library`'s
`os.path.isdir`/`os.path.isfile` tests: a directory with its listing, a
regular file with its (optional, `none` = unreadable) byte content and
its `eyed3` load result, or anything else (broken symlink, device file,
socket), which carries no content at all. -/
inductive FsEntry where
  | dir : String → List FsEntry → FsEntry
  | file : String → Option (List Nat) → Option (Option Id3Tag) → FsEntry
  | special : String → FsEntry

/-- Embedding of `build_library(path)`: iterate over the listing in
order; recurse into directories and extend both collections with the
recursive results; construct a `CollatorFile` for each regular file and
route it to the audio list (`is_audio_file`) or its path to the unknown
list; route every other entry's path to the unknown list. Every
constructed child path is `os.path.join(path, f).replace("\\", "/")`.
An uncaught exception (modelled `Except.error`) aborts the whole
traversal. -/
def build_library (digest : List Nat → String) :
    String → List FsEntry → Except String (List CollatorFile × List String)
  | _, [] => Except.ok ([], [])
  | path, FsEntry.dir n children :: rest =>
    match build_library digest (normPath (joinPath path n)) children with
    | Except.error e => Except.error e
    | Except.ok (l1, u1) =>
      match build_library digest path rest with
      | Except.error e => Except.error e
      | Except.ok (l2, u2) => Except.ok (l1 ++ l2, u1 ++ u2)
  | path, FsEntry.file n content tags :: rest =>
    match mkCollatorFile digest content tags (normPath (joinPath path n)) with
    | Except.error e => Except.error e
    | Except.ok cf =>
      match build_library digest path rest with
      | Except.error e => Except.error e
      | Except.ok (l2, u2) =>
        if cf.is_audio_file then Except.ok (cf :: l2, u2)
        else Except.ok (l2, normPath (joinPath path n) :: u2)
  | path, FsEntry.special n :: rest =>
    match build_library digest path rest with
    | Except.error e => Except.error e
    | Except.ok (l2, u2) => Except.ok (l2, normPath (joinPath path n) :: u2)

/-- A listing contains (transitively) a regular file whose content cannot
be read: exactly the situations in which some `CollatorFile.__init__`
raises `IOError` during the traversal. -/
def hasUnreadable : List FsEntry → Bool
  | [] => false
  | FsEntry.dir _ children :: rest => hasUnreadable children || hasUnreadable rest
  | FsEntry.file _ none _ :: _ => true
  | FsEntry.file _ (some _) _ :: rest => hasUnreadable rest
  | FsEntry.special _ :: rest => hasUnreadable rest

/-- Auxiliary: with a positive block size the read/update loop absorbs
exactly the whole remaining content, appended to what was absorbed so
far. -/
theorem absorbStream_append (B : Nat) (hB : 0 < B) :
    ∀ l acc : List Nat, absorbStream B acc l = acc ++ l := by
  have main : ∀ n (l acc : List Nat), l.length ≤ n → absorbStream B acc l = acc ++ l := by
    intro n
    induction n with
    | zero =>
      intro l acc h
      have hl : l = [] := List.eq_nil_of_length_eq_zero (Nat.le_zero.mp h)
      subst hl
      simp [absorbStream]
    | succ n ih =>
      intro l acc h
      match l with
      | [] => simp [absorbStream]
      | c :: cs =>
        rw [absorbStream]
        rw [if_neg (by omega)]
        rw [ih ((c :: cs).drop B) (acc ++ (c :: cs).take B)
          (by simp [List.length_drop] at h ⊢; omega)]
        rw [List.append_assoc, List.take_append_drop]
  exact fun l acc => main l.length l acc le_rfl

/-- C4: `generate_hash` finalizes the digest over exactly the full file
content: streaming through the update loop in blocks of any positive
size `B` — in particular the fixed `BLOCKSIZE` of 64 KiB — absorbs the
same byte sequence as a single whole-content update, for every finalizer
`digest`, so the block size is not correctness-relevant. -/
theorem c4_generate_hash_streams_whole_content (digest : List Nat → String)
    (content : List Nat) (B : Nat) (hB : 0 < B) :
    digest (absorbStream B [] content) = digest content ∧
    generate_hash digest content = digest content := by
  constructor
  · rw [absorbStream_append B hB]
    rfl
  · unfold generate_hash
    rw [absorbStream_append BLOCKSIZE (by decide)]
    rfl

/-- Witness for C4 at block size 3 and a concrete content and finalizer. -/
theorem c4_generate_hash_streams_whole_content_witness :
    0 < 3 ∧
    ((fun l : List Nat => String.mk (l.map Char.ofNat)) (absorbStream 3 [] [104, 105]) =
        (fun l : List Nat => String.mk (l.map Char.ofNat)) [104, 105] ∧
      generate_hash (fun l : List Nat => String.mk (l.map Char.ofNat)) [104, 105] =
        (fun l : List Nat => String.mk (l.map Char.ofNat)) [104, 105]) :=
  ⟨by decide,
    c4_generate_hash_streams_whole_content (fun l => String.mk (l.map Char.ofNat))
      [104, 105] 3 (by decide)⟩

/-- C9: the hash of a file depends only on its byte content: two files
with identical content hash identically regardless of their names, their
paths, or the surrounding filesystem state — which also gives determinism
across two invocations on an unmodified file (`fsA = fsB`, `p1 = p2`). -/
theorem c9_hash_content_addressed (digest : List Nat → String)
    (fsA fsB : String → Option (List Nat)) (p1 p2 : String) (c : List Nat)
    (h1 : fsA p1 = some c) (h2 : fsB p2 = some c) :
    generate_hash_at digest fsA p1 = generate_hash_at digest fsB p2 := by
  unfold generate_hash_at
  rw [h1, h2]

/-- Witness for C9: the same two-byte content under two different names. -/
theorem c9_hash_content_addressed_witness :
    generate_hash_at (fun l => String.mk (l.map Char.ofNat)) (fun _ => some [1, 2]) "/m/a.mp3" =
      generate_hash_at (fun l => String.mk (l.map Char.ofNat)) (fun _ => some [1, 2]) "/n/b.mp3" :=
  c9_hash_content_addressed (fun l => String.mk (l.map Char.ofNat))
    (fun _ => some [1, 2]) (fun _ => some [1, 2]) "/m/a.mp3" "/n/b.mp3" [1, 2] rfl rfl

/-- C8: the three tag accessors return the corresponding field of the tag
container when one is present, and `none` (never an error — the accessors
are total) when `eyed3.load` returned nothing or the loaded file has no
tag container; each accessor reads only its own field, so the absence of
one field cannot affect the value returned for another. -/
theorem c8_tag_accessors_total (cf : CollatorFile) :
    (∀ t : Id3Tag, cf.audiofile = some (some t) →
      cf.title_tag = t.title ∧ cf.artist_tag = t.artist ∧ cf.album_tag = t.album) ∧
    (cf.audiofile = none ∨ cf.audiofile = some none →
      cf.title_tag = none ∧ cf.artist_tag = none ∧ cf.album_tag = none) := by
  constructor
  · intro t ht
    simp [CollatorFile.title_tag, CollatorFile.artist_tag, CollatorFile.album_tag, ht]
  · rintro (h | h) <;>
      simp [CollatorFile.title_tag, CollatorFile.artist_tag, CollatorFile.album_tag, h]

/-- Witness for C8: a tagged file with no album field still yields its
title, the album accessor yields `none`, and a file with no tag container
yields `none` without an error. -/
theorem c8_tag_accessors_total_witness :
    CollatorFile.title_tag ⟨"/x/t.mp3", "h", some (some ⟨some "T", some "A", none⟩)⟩ = some "T" ∧
    CollatorFile.album_tag ⟨"/x/t.mp3", "h", some (some ⟨some "T", some "A", none⟩)⟩ = none ∧
    CollatorFile.title_tag ⟨"/y/u.mp3", "h", none⟩ = none := by
  refine ⟨?_, ?_, ?_⟩
  · exact ((c8_tag_accessors_total _).1 ⟨some "T", some "A", none⟩ rfl).1
  · exact ((c8_tag_accessors_total _).1 ⟨some "T", some "A", none⟩ rfl).2.2
  · exact ((c8_tag_accessors_total _).2 (Or.inl rfl)).1

/-- C1 (amended): for a path whose split yields exactly 7 segments
`.../x/a/b/ARTISTX/ALBUMY/track.mp3` — ARTISTX at index 4 and ALBUMY at
index 5 — `path_artist` returns the ARTISTX segment and `path_album` the
ALBUMY segment. -/
theorem c1_path_artist_album_positions (p : String)
    (s0 s1 s2 s3 artist album track : String)
    (h : path_elements p = [s0, s1, s2, s3, artist, album, track]) :
    path_artist p = some artist ∧ path_album p = some album := by
  unfold path_artist path_album
  rw [h]
  exact ⟨rfl, rfl⟩

/-- Witness for C1 (amended) at a concrete 7-segment absolute path. -/
theorem c1_path_artist_album_positions_witness :
    path_artist "/a/b/c/ARTISTX/ALBUMY/track.mp3" = some "ARTISTX" ∧
    path_album "/a/b/c/ARTISTX/ALBUMY/track.mp3" = some "ALBUMY" :=
  c1_path_artist_album_positions "/a/b/c/ARTISTX/ALBUMY/track.mp3"
    "" "a" "b" "c" "ARTISTX" "ALBUMY" "track.mp3" (by decide)

/-- C1 counterexample: `/a/b/ARTISTX/ALBUMY/track.mp3` splits into
exactly 6 segments of the claimed form, yet `path_artist` returns the
ALBUMY segment (index 4) and `path_album` the filename (index 5), not
ARTISTX and ALBUMY. -/
theorem c1_counterexample :
    (path_elements "/a/b/ARTISTX/ALBUMY/track.mp3").length = 6 ∧
    path_artist "/a/b/ARTISTX/ALBUMY/track.mp3" = some "ALBUMY" ∧
    path_artist "/a/b/ARTISTX/ALBUMY/track.mp3" ≠ some "ARTISTX" ∧
    path_album "/a/b/ARTISTX/ALBUMY/track.mp3" = some "track.mp3" ∧
    path_album "/a/b/ARTISTX/ALBUMY/track.mp3" ≠ some "ALBUMY" := by decide

/-- C2 (amended): with at least 6 split segments both accessors succeed
and return the segments at indices 4 and 5; `path_artist` fails (raises
`IndexError`, modelled `none`) precisely when there are at most 4
segments, and `path_album` precisely when there are at most 5 — so on a
path with exactly 5 segments `path_artist` succeeds while `path_album`
fails. -/
theorem c2_path_accessor_bounds (p : String) :
    ((path_elements p).length ≤ 4 → path_artist p = none) ∧
    (5 ≤ (path_elements p).length → path_artist p = some ((path_elements p).getD 4 "")) ∧
    ((path_elements p).length ≤ 5 → path_album p = none) ∧
    (6 ≤ (path_elements p).length → path_album p = some ((path_elements p).getD 5 "")) := by
  refine ⟨?_, ?_, ?_, ?_⟩ <;> intro h
  · exact List.getElem?_eq_none h
  · show (path_elements p)[4]? = some ((path_elements p).getD 4 "")
    rw [List.getElem?_eq_getElem (by omega), List.getD_eq_getElem _ _ (by omega)]
  · exact List.getElem?_eq_none h
  · show (path_elements p)[5]? = some ((path_elements p).getD 5 "")
    rw [List.getElem?_eq_getElem (by omega), List.getD_eq_getElem _ _ (by omega)]

/-- Witness for C2 (amended): both failure at a 2-segment path and
success at a 6-segment path. -/
theorem c2_path_accessor_bounds_witness :
    path_artist "a/b" = none ∧ path_album "a/b" = none ∧
    path_artist "a/b/c/d/e/f" = some "e" ∧ path_album "a/b/c/d/e/f" = some "f" := by
  have h1 := (c2_path_accessor_bounds "a/b").1 (by decide)
  have h2 := (c2_path_accessor_bounds "a/b").2.2.1 (by decide)
  have h3 := (c2_path_accessor_bounds "a/b/c/d/e/f").2.1 (by decide)
  have h4 := (c2_path_accessor_bounds "a/b/c/d/e/f").2.2.2 (by decide)
  refine ⟨h1, h2, ?_, ?_⟩
  · rw [h3]; decide
  · rw [h4]; decide

/-- C2 counterexample: `a/b/c/d/e` has 5 segments — fewer than 6 — yet
accessing `path_artist` succeeds (index 4 exists), contradicting the
claim that both accessors fail on every path with fewer than 6
segments. -/
theorem c2_counterexample :
    (path_elements "a/b/c/d/e").length = 5 ∧
    (path_elements "a/b/c/d/e").length < 6 ∧
    path_artist "a/b/c/d/e" = some "e" := by decide

/-- Auxiliary: the traversal of an empty listing yields two empty
collections. -/
theorem build_library_nil (digest : List Nat → String) (path : String) :
    build_library digest path [] = Except.ok ([], []) := by
  simp [build_library]

/-- Auxiliary: step equation for a readable regular file whose name
classifies as audio. -/
theorem build_library_cons_file_audio (digest : List Nat → String)
    (path n : String) (bytes : List Nat) (tags : Option (Option Id3Tag))
    (rest : List FsEntry) (l : List CollatorFile) (u : List String)
    (hrest : build_library digest path rest = Except.ok (l, u))
    (ha : CollatorFile.is_audio_file
      ⟨normPath (joinPath path n), generate_hash digest bytes, tags⟩ = true) :
    build_library digest path (FsEntry.file n (some bytes) tags :: rest) =
      Except.ok (⟨normPath (joinPath path n), generate_hash digest bytes, tags⟩ :: l, u) := by
  simp [build_library, mkCollatorFile, hrest, ha]

/-- Auxiliary: step equation for a readable regular file whose name does
not classify as audio. -/
theorem build_library_cons_file_unknown (digest : List Nat → String)
    (path n : String) (bytes : List Nat) (tags : Option (Option Id3Tag))
    (rest : List FsEntry) (l : List CollatorFile) (u : List String)
    (hrest : build_library digest path rest = Except.ok (l, u))
    (ha : CollatorFile.is_audio_file
      ⟨normPath (joinPath path n), generate_hash digest bytes, tags⟩ = false) :
    build_library digest path (FsEntry.file n (some bytes) tags :: rest) =
      Except.ok (l, normPath (joinPath path n) :: u) := by
  simp [build_library, mkCollatorFile, hrest, ha]

/-- Auxiliary: step equation for an entry that is neither a directory nor
a regular file. -/
theorem build_library_cons_special (digest : List Nat → String)
    (path n : String) (rest : List FsEntry) (l : List CollatorFile) (u : List String)
    (hrest : build_library digest path rest = Except.ok (l, u)) :
    build_library digest path (FsEntry.special n :: rest) =
      Except.ok (l, normPath (joinPath path n) :: u) := by
  simp [build_library, hrest]

/-- Auxiliary: step equation for a directory entry when both the
recursive traversal and the remaining siblings succeed. -/
theorem build_library_cons_dir (digest : List Nat → String)
    (path n : String) (children rest : List FsEntry)
    (l1 l2 : List CollatorFile) (u1 u2 : List String)
    (h1 : build_library digest (normPath (joinPath path n)) children = Except.ok (l1, u1))
    (h2 : build_library digest path rest = Except.ok (l2, u2)) :
    build_library digest path (FsEntry.dir n children :: rest) =
      Except.ok (l1 ++ l2, u1 ++ u2) := by
  simp [build_library, h1, h2]

/-- C5: at any point of the traversal, a readable regular file produces a
constructed `CollatorFile` that is prepended to the audio collection when
`is_audio_file` holds and whose (normalized) path is prepended to the
unknown collection otherwise, while an entry that is neither a directory
nor a regular file contributes only its path to the unknown collection —
no `CollatorFile` is constructed for it, nothing is hashed, and no error
is raised. -/
theorem c5_file_and_special_classification (digest : List Nat → String)
    (path n : String) (bytes : List Nat) (tags : Option (Option Id3Tag))
    (rest : List FsEntry) (l : List CollatorFile) (u : List String)
    (hrest : build_library digest path rest = Except.ok (l, u)) :
    (CollatorFile.is_audio_file
        ⟨normPath (joinPath path n), generate_hash digest bytes, tags⟩ = true →
      build_library digest path (FsEntry.file n (some bytes) tags :: rest) =
        Except.ok (⟨normPath (joinPath path n), generate_hash digest bytes, tags⟩ :: l, u)) ∧
    (CollatorFile.is_audio_file
        ⟨normPath (joinPath path n), generate_hash digest bytes, tags⟩ = false →
      build_library digest path (FsEntry.file n (some bytes) tags :: rest) =
        Except.ok (l, normPath (joinPath path n) :: u)) ∧
    build_library digest path (FsEntry.special n :: rest) =
      Except.ok (l, normPath (joinPath path n) :: u) :=
  ⟨fun ha => build_library_cons_file_audio digest path n bytes tags rest l u hrest ha,
   fun ha => build_library_cons_file_unknown digest path n bytes tags rest l u hrest ha,
   build_library_cons_special digest path n rest l u hrest⟩

/-- Witness for C5: one audio file, one non-audio file and one special
entry under a concrete root. -/
theorem c5_file_and_special_classification_witness :
    build_library (fun _ => "d") "/r" [FsEntry.file "t.mp3" (some [1]) none] =
      Except.ok ([⟨"/r/t.mp3", generate_hash (fun _ => "d") [1], none⟩], []) ∧
    build_library (fun _ => "d") "/r" [FsEntry.file "readme.txt" (some [1]) none] =
      Except.ok ([], ["/r/readme.txt"]) ∧
    build_library (fun _ => "d") "/r" [FsEntry.special "dangling"] =
      Except.ok ([], ["/r/dangling"]) := by
  have h1 := c5_file_and_special_classification (fun _ => "d") "/r" "t.mp3" [1] none [] [] []
    (build_library_nil _ _)
  have h2 := c5_file_and_special_classification (fun _ => "d") "/r" "readme.txt" [1] none [] [] []
    (build_library_nil _ _)
  have h3 := c5_file_and_special_classification (fun _ => "d") "/r" "dangling" [1] none [] [] []
    (build_library_nil _ _)
  refine ⟨?_, ?_, ?_⟩
  · have := h1.1 (by decide)
    simpa using this
  · have := h2.2.1 (by decide)
    simpa using this
  · have := h3.2.2
    simpa using this

/-- C6: a directory entry makes the traversal recurse into the (already
normalized) child path and append the recursive audio and unknown
collections onto the ones produced by the remaining siblings, so the
result aggregates the whole subtree; an empty subdirectory contributes
nothing to either collection. -/
theorem c6_dir_recursion_aggregates (digest : List Nat → String)
    (path n : String) (children rest : List FsEntry)
    (l1 l2 : List CollatorFile) (u1 u2 : List String)
    (h1 : build_library digest (normPath (joinPath path n)) children = Except.ok (l1, u1))
    (h2 : build_library digest path rest = Except.ok (l2, u2)) :
    build_library digest path (FsEntry.dir n children :: rest) =
      Except.ok (l1 ++ l2, u1 ++ u2) ∧
    build_library digest path (FsEntry.dir n [] :: rest) = Except.ok (l2, u2) := by
  refine ⟨build_library_cons_dir digest path n children rest l1 l2 u1 u2 h1 h2, ?_⟩
  have := build_library_cons_dir digest path n [] rest [] l2 [] u2
    (build_library_nil _ _) h2
  simpa using this

/-- Witness for C6: a root with a populated subdirectory, then a root
where an empty subdirectory sits next to an unknown file. -/
theorem c6_dir_recursion_aggregates_witness :
    build_library (fun _ => "d") "/r"
        [FsEntry.dir "sub" [FsEntry.file "x.bin" (some [2]) none]] =
      Except.ok ([], ["/r/sub/x.bin"]) ∧
    build_library (fun _ => "d") "/r"
        [FsEntry.dir "emptydir" [], FsEntry.file "readme.txt" (some [3]) none] =
      Except.ok ([], ["/r/readme.txt"]) := by
  have hin : build_library (fun _ => "d") (normPath (joinPath "/r" "sub"))
      [FsEntry.file "x.bin" (some [2]) none] = Except.ok ([], ["/r/sub/x.bin"]) := by
    have := build_library_cons_file_unknown (fun _ => "d") (normPath (joinPath "/r" "sub"))
      "x.bin" [2] none [] [] [] (build_library_nil _ _) (by decide)
    simpa using this
  have hrest : build_library (fun _ => "d") "/r"
      [FsEntry.file "readme.txt" (some [3]) none] = Except.ok ([], ["/r/readme.txt"]) := by
    have := build_library_cons_file_unknown (fun _ => "d") "/r"
      "readme.txt" [3] none [] [] [] (build_library_nil _ _) (by decide)
    simpa using this
  constructor
  · have := (c6_dir_recursion_aggregates (fun _ => "d") "/r" "sub"
      [FsEntry.file "x.bin" (some [2]) none] [] [] [] ["/r/sub/x.bin"] []
      hin (build_library_nil _ _)).1
    simpa using this
  · have := (c6_dir_recursion_aggregates (fun _ => "d") "/r" "emptydir" []
      [FsEntry.file "readme.txt" (some [3]) none] [] [] [] ["/r/readme.txt"]
      (build_library_nil _ _) hrest).2
    simpa using this

/-- C7: if the traversal encounters (anywhere in the tree) a regular file
whose content cannot be read — the situation in which the
`CollatorFile.__init__` of that file raises `IOError` — then the whole
`build_library` traversal aborts with an error and returns no partial
collections (paths the positional accessors are never invoked during
traversal, so construction failure is the only failing event to
consider). -/
theorem c7_unreadable_file_aborts_traversal (digest : List Nat → String)
    (path : String) (entries : List FsEntry)
    (hu : hasUnreadable entries = true) :
    ∃ msg, build_library digest path entries = Except.error msg := by
  revert hu
  induction path, entries using build_library.induct digest with
  | case1 p =>
    intro hu
    simp [hasUnreadable] at hu
  | case2 p n children rest e hc ih1 =>
    intro hu
    exact ⟨e, by simp [build_library, hc]⟩
  | case3 p n children rest l1 u1 hcok e hre ih2 ih1 =>
    intro hu
    exact ⟨e, by simp [build_library, hcok, hre]⟩
  | case4 p n children rest l1 u1 hcok l2 u2 hrok ih2 ih1 =>
    intro hu
    simp [hasUnreadable] at hu
    rcases hu with hu | hu
    · obtain ⟨m, hm⟩ := ih2 hu
      rw [hm] at hcok
      simp at hcok
    · obtain ⟨m, hm⟩ := ih1 hu
      rw [hm] at hrok
      simp at hrok
  | case5 p n content tags rest e hmk =>
    intro hu
    exact ⟨e, by simp [build_library, hmk]⟩
  | case6 p n content tags rest cf hmk e hre ih1 =>
    intro hu
    exact ⟨e, by simp [build_library, hmk, hre]⟩
  | case7 p n content tags rest cf hmk l2 u2 hrok haud ih1 =>
    intro hu
    cases content with
    | none => simp [mkCollatorFile] at hmk
    | some bytes =>
      simp [hasUnreadable] at hu
      obtain ⟨m, hm⟩ := ih1 hu
      rw [hm] at hrok
      simp at hrok
  | case8 p n content tags rest cf hmk l2 u2 hrok haud ih1 =>
    intro hu
    cases content with
    | none => simp [mkCollatorFile] at hmk
    | some bytes =>
      simp [hasUnreadable] at hu
      obtain ⟨m, hm⟩ := ih1 hu
      rw [hm] at hrok
      simp at hrok
  | case9 p n rest e hre ih1 =>
    intro hu
    exact ⟨e, by simp [build_library, hre]⟩
  | case10 p n rest l2 u2 hrok ih1 =>
    intro hu
    simp [hasUnreadable] at hu
    obtain ⟨m, hm⟩ := ih1 hu
    rw [hm] at hrok
    simp at hrok

/-- Witness for C7: a root holding one unreadable regular file. -/
theorem c7_unreadable_file_aborts_traversal_witness :
    hasUnreadable [FsEntry.file "x.mp3" none none] = true ∧
    ∃ msg, build_library (fun _ => "d") "/r" [FsEntry.file "x.mp3" none none] =
      Except.error msg :=
  ⟨by simp [hasUnreadable],
   c7_unreadable_file_aborts_traversal (fun _ => "d") "/r"
     [FsEntry.file "x.mp3" none none] (by simp [hasUnreadable])⟩

/-- Auxiliary: the output of the backslash normalization never contains a
backslash. -/
theorem normPath_no_backslash (s : String) : '\\' ∉ (normPath s).data := by
  intro h
  have hd : (normPath s).data = s.data.map normChar := rfl
  rw [hd] at h
  rcases List.mem_map.mp h with ⟨c, _, he⟩
  by_cases hc : c = '\\'
  · rw [normChar, if_pos hc] at he
    exact absurd he (by decide)
  · rw [normChar, if_neg hc] at he
    exact hc he

/-- Auxiliary invariant: on a successful traversal, every stored
descriptor path and every unknown-collection path is an output of the
backslash normalization, hence backslash-free. -/
theorem build_library_backslash_free (digest : List Nat → String)
    (path : String) (entries : List FsEntry) (l : List CollatorFile) (u : List String)
    (hok : build_library digest path entries = Except.ok (l, u)) :
    (∀ cf ∈ l, '\\' ∉ cf.fname.data) ∧ (∀ q ∈ u, '\\' ∉ q.data) := by
  induction path, entries using build_library.induct digest generalizing l u with
  | case1 p =>
    rw [build_library_nil] at hok
    simp at hok
    obtain ⟨h1, h2⟩ := hok
    subst h1
    subst h2
    simp
  | case2 p n children rest e hc ih1 =>
    simp [build_library, hc] at hok
  | case3 p n children rest l1 u1 hcok e hre ih2 ih1 =>
    simp [build_library, hcok, hre] at hok
  | case4 p n children rest l1 u1 hcok l2 u2 hrok ih2 ih1 =>
    simp [build_library, hcok, hrok] at hok
    obtain ⟨h1, h2⟩ := hok
    subst h1
    subst h2
    obtain ⟨ihc1, ihc2⟩ := ih2 l1 u1 hcok
    obtain ⟨ihr1, ihr2⟩ := ih1 l2 u2 hrok
    constructor
    · intro cf hcf
      rcases List.mem_append.mp hcf with h | h
      · exact ihc1 cf h
      · exact ihr1 cf h
    · intro q hq
      rcases List.mem_append.mp hq with h | h
      · exact ihc2 q h
      · exact ihr2 q h
  | case5 p n content tags rest e hmk =>
    simp [build_library, hmk] at hok
  | case6 p n content tags rest cf hmk e hre ih1 =>
    simp [build_library, hmk, hre] at hok
  | case7 p n content tags rest cf hmk l2 u2 hrok haud ih1 =>
    simp [build_library, hmk, hrok, haud] at hok
    cases content with
    | none => simp [mkCollatorFile] at hmk
    | some bytes =>
      simp [mkCollatorFile] at hmk
      obtain ⟨h1, h2⟩ := hok
      subst h1
      subst h2
      obtain ⟨ihr1, ihr2⟩ := ih1 l2 u2 hrok
      refine ⟨?_, ihr2⟩
      intro cf' hcf'
      rcases List.mem_cons.mp hcf' with h | h
      · subst h
        rw [← hmk]
        exact normPath_no_backslash _
      · exact ihr1 cf' h
  | case8 p n content tags rest cf hmk l2 u2 hrok haud ih1 =>
    simp [build_library, hmk, hrok, haud] at hok
    obtain ⟨h1, h2⟩ := hok
    subst h1
    subst h2
    obtain ⟨ihr1, ihr2⟩ := ih1 l2 u2 hrok
    refine ⟨ihr1, ?_⟩
    intro q hq
    rcases List.mem_cons.mp hq with h | h
    · subst h
      exact normPath_no_backslash _
    · exact ihr2 q h
  | case9 p n rest e hre ih1 =>
    simp [build_library, hre] at hok
  | case10 p n rest l2 u2 hrok ih1 =>
    simp [build_library, hrok] at hok
    obtain ⟨h1, h2⟩ := hok
    subst h1
    subst h2
    obtain ⟨ihr1, ihr2⟩ := ih1 l2 u2 hrok
    refine ⟨ihr1, ?_⟩
    intro q hq
    rcases List.mem_cons.mp hq with h | h
    · subst h
      exact normPath_no_backslash _
    · exact ihr2 q h

/-- C10: every path stored by a successful traversal — each descriptor's
`fname` and each unknown-collection entry — has had every backslash
replaced by a slash before classification; the positional accessors split
only on the slash character, so a normalized path is segmented at both
original slashes and original backslashes, while a `CollatorFile`
constructed directly with a backslash-separated path keeps the backslash
inside a single segment and is segmented differently. -/
theorem c10_backslash_normalization :
    (∀ (digest : List Nat → String) (path : String) (entries : List FsEntry)
        (l : List CollatorFile) (u : List String),
      build_library digest path entries = Except.ok (l, u) →
      (∀ cf ∈ l, '\\' ∉ cf.fname.data) ∧ (∀ q ∈ u, '\\' ∉ q.data)) ∧
    path_elements "a\\b/c" = ["a\\b", "c"] ∧
    path_elements (normPath "a\\b/c") = ["a", "b", "c"] ∧
    path_elements "C:\\Music\\AR\\AL\\t.mp3" = ["C:\\Music\\AR\\AL\\t.mp3"] ∧
    path_artist "C:\\Music\\AR\\AL\\t.mp3" = none := by
  refine ⟨fun digest path entries l u hok =>
    build_library_backslash_free digest path entries l u hok, ?_, ?_, ?_, ?_⟩
  all_goals decide

/-- Witness for C10: the normalized unknown path produced for a special
entry whose name contains a backslash is backslash-free. -/
theorem c10_backslash_normalization_witness :
    ¬ ('\\' ∈ ("/r/win/name" : String).data) := by
  have hb : build_library (fun _ => "d") "/r" [FsEntry.special "win\\name"] =
      Except.ok ([], ["/r/win/name"]) := by
    have := build_library_cons_special (fun _ => "d") "/r" "win\\name" [] [] []
      (build_library_nil _ _)
    simpa using this
  exact (c10_backslash_normalization.1 (fun _ => "d") "/r" [FsEntry.special "win\\name"]
    [] ["/r/win/name"] hb).2 "/r/win/name" (by simp)

/-- Auxiliary: a list satisfying the extension condition is exactly three
characters long, and those characters pass `isExtChars`. -/
theorem extOK_shape {e : List Char} (h : extOK e) :
    ∃ a b c, e = [a, b, c] ∧ isExtChars a b c = true := by
  rcases e with _ | ⟨a, _ | ⟨b, _ | ⟨c, _ | ⟨d, tl⟩⟩⟩⟩
  · simp [extOK] at h
  · simp [extOK] at h
  · simp [extOK] at h
  · refine ⟨a, b, c, rfl, ?_⟩
    rcases h with h | h
    · simp at h
      obtain ⟨h1, h2, h3⟩ := h
      simp [isExtChars, h1, h2, h3]
    · simp at h
      obtain ⟨h1, h2, h3⟩ := h
      simp [isExtChars, h1, h2, h3]
  · simp [extOK] at h

/-- Auxiliary: converse of `extOK_shape` for a three-character list. -/
theorem extOK_of_isExtChars {a b c : Char} (h : isExtChars a b c = true) :
    extOK [a, b, c] := by
  simp [isExtChars] at h
  rcases h with ⟨⟨h1, h2⟩, h3⟩ | ⟨⟨h1, h2⟩, h3⟩
  · exact Or.inl (by simp [h1, h2, h3])
  · exact Or.inr (by simp [h1, h2, h3])

/-- Auxiliary: a match region is at least five characters long. -/
theorem corePattern_length {l : List Char} (h : corePattern l) : 5 ≤ l.length := by
  obtain ⟨p, e, heq, hp, hnl, hext⟩ := h
  obtain ⟨a, b, c, rfl, _⟩ := extOK_shape hext
  subst heq
  have h1 : 1 ≤ p.length := List.length_pos.mpr hp
  have h2 : (p ++ '.' :: [a, b, c]).length = p.length + 4 := by simp
  omega

/-- Auxiliary: a match region cannot end in a newline, since the
extension characters cannot lower-case to `3` or `a` if one of them is a
newline. -/
theorem corePattern_concat_newline_false (x : List Char) :
    ¬ corePattern (x ++ ['\n']) := by
  rintro ⟨p, e, heq, hp, hnl, hext⟩
  obtain ⟨a, b, c, rfl, hie⟩ := extOK_shape hext
  have hlast1 : (x ++ ['\n']).getLast? = some '\n' := List.getLast?_concat _
  have hlast2 : (p ++ '.' :: [a, b, c]).getLast? = some c := by
    rw [show p ++ '.' :: [a, b, c] = (p ++ ['.', a, b]) ++ [c] by simp]
    exact List.getLast?_concat _
  rw [heq, hlast2] at hlast1
  have hc : c = '\n' := by
    injection hlast1
  subst hc
  simp [isExtChars] at hie

/-- Auxiliary: the reversed-list matcher decides exactly the match-region
pattern. -/
theorem coreRevMatch_iff (r : List Char) :
    coreRevMatch r = true ↔ corePattern r.reverse := by
  rcases r with _ | ⟨c1, _ | ⟨c2, _ | ⟨c3, _ | ⟨c4, p⟩⟩⟩⟩
  · constructor
    · intro h
      simp [coreRevMatch] at h
    · intro h
      have hlen := corePattern_length h
      simp at hlen
  · constructor
    · intro h
      simp [coreRevMatch] at h
    · intro h
      have hlen := corePattern_length h
      simp at hlen
  · constructor
    · intro h
      simp [coreRevMatch] at h
    · intro h
      have hlen := corePattern_length h
      simp at hlen
  · constructor
    · intro h
      simp [coreRevMatch] at h
    · intro h
      have hlen := corePattern_length h
      simp at hlen
  · constructor
    · intro h
      simp [coreRevMatch] at h
      obtain ⟨⟨⟨hdot, hne⟩, hnl⟩, hext⟩ := h
      refine ⟨p.reverse, [c3, c2, c1], ?_, ?_, ?_, ?_⟩
      · subst hdot
        simp
      · simpa using hne
      · intro hm
        rw [List.mem_reverse] at hm
        exact hnl '\n' hm rfl
      · exact extOK_of_isExtChars hext
    · rintro ⟨q, e, heq, hq, hnl, hext⟩
      obtain ⟨a, b, c, rfl, hie⟩ := extOK_shape hext
      have hr2 : (c1 :: c2 :: c3 :: c4 :: p : List Char) = c :: b :: a :: '.' :: q.reverse := by
        have h0 := congrArg List.reverse heq
        simpa using h0
      rw [hr2]
      simp [coreRevMatch, hie]
      refine ⟨?_, ?_⟩
      · exact hq
      · intro x hx hxx
        rw [hxx] at hx
        exact hnl hx

/-- Auxiliary: the regex decision procedure agrees with the amended
pattern on every base filename. -/
theorem isAudioBase_iff (b : List Char) :
    isAudioBase b = true ↔ audioRegexPattern b := by
  show isAudioBase b = true ↔ corePattern b ∨ ∃ x, b = x ++ ['\n'] ∧ corePattern x
  rcases hr : b.reverse with _ | ⟨c, r⟩
  · have hb : b = [] := by
      have h0 := congrArg List.reverse hr
      simpa using h0
    subst hb
    constructor
    · intro h
      simp [isAudioBase] at h
    · rintro (hc | ⟨x, hx, hcx⟩)
      · have hlen := corePattern_length hc
        simp at hlen
      · exact absurd hx (by simp)
  · have hb : b = r.reverse ++ [c] := by
      have h0 := congrArg List.reverse hr
      simpa using h0
    by_cases hc : c = '\n'
    · subst hc
      have hiso : isAudioBase b = coreRevMatch r := by
        simp [isAudioBase, hr]
      rw [hiso, coreRevMatch_iff]
      constructor
      · intro hcp
        exact Or.inr ⟨r.reverse, hb, hcp⟩
      · rintro (hcp | ⟨x, hx, hcx⟩)
        · rw [hb] at hcp
          exact absurd hcp (corePattern_concat_newline_false _)
        · have hxr : r.reverse = x := by
            have h0 := congrArg List.dropLast hx
            rw [hb] at h0
            simpa [List.dropLast_concat] using h0
          rw [hxr]
          exact hcx
    · have hiso : isAudioBase b = coreRevMatch (c :: r) := by
        simp [isAudioBase, hr, hc]
      rw [hiso, coreRevMatch_iff]
      have hrev : (c :: r).reverse = b := by
        rw [hb]
        simp
      rw [hrev]
      constructor
      · exact Or.inl
      · rintro (hcp | ⟨x, hx, hcx⟩)
        · exact hcp
        · exfalso
          have h1 : b.getLast? = some c := by
            rw [hb]
            exact List.getLast?_concat _
          have h2 : b.getLast? = some '\n' := by
            rw [hx]
            exact List.getLast?_concat _
          rw [h1] at h2
          have : c = '\n' := by injection h2
          exact hc this

/-- C3 (amended): `is_audio_file` is true exactly when the base filename
matches, case-insensitively, the pattern "a non-empty newline-free
prefix, then a dot, then an extension of exactly `mp3` or `m4a`,
optionally followed by one final newline"; in particular it is true for
`track.MP3` and `track.m4a` and false for `cover.jpg` and
`track.mp3.bak`. -/
theorem c3_is_audio_file_iff_pattern :
    (∀ fname : String, isAudioFile fname = true ↔
      audioRegexPattern (basenameChars fname.data)) ∧
    isAudioFile "track.MP3" = true ∧ isAudioFile "track.m4a" = true ∧
    isAudioFile "cover.jpg" = false ∧ isAudioFile "track.mp3.bak" = false :=
  ⟨fun fname => isAudioBase_iff (basenameChars fname.data),
   by decide, by decide, by decide, by decide⟩

/-- C3 counterexample: the base filename consisting of the non-empty
prefix `a<newline>b`, a dot, and the extension `mp3` satisfies the
claimed pattern, yet `is_audio_file` returns false for it — the `.+` of
the regex cannot cross the newline — so the claimed equivalence fails. -/
theorem c3_counterexample :
    audioSpecPattern (basenameChars ("a\nb.mp3" : String).data) ∧
    isAudioFile "a\nb.mp3" = false := by
  constructor
  · refine ⟨['a', '\n', 'b'], ['m', 'p', '3'], ?_, ?_, ?_⟩
    · decide
    · decide
    · exact Or.inl (by decide)
  · decide
